import Mathlib

/-!
Verification of the Opening Practice Engine of the chess-openings-expo
repository, as a shallow embedding in Lean 4.

The embedded definitions are translated from the TypeScript sources:
  * `src/services/chess/openingDatabase.ts` (theory matcher),
  * `src/services/chess/aiOpponent.ts` (scripted opponent),
  * `src/hooks/useOpeningPractice.ts` (practice session state machine),
  * `src/services/storage/progressTracker.ts` (progress records),
  * `src/services/gamification/openingRoulette.ts` (opening selector).

JavaScript numbers are modelled by `Rat` (accuracies, weights) and `Int`
(epoch-millisecond timestamps); array indices by `Nat`.  `Math.random()`
draws are modelled by explicitly passed rational values in `[0, 1)` or,
for array-index draws `Math.floor(Math.random() * len)` (always a valid
index of a non-empty array), by a natural number reduced modulo `len`.
-/

/-- A chess side, `'white' | 'black'` in `types/chess.ts`. -/
inductive Color where
  | white
  | black
deriving DecidableEq, Repr

/-- Promotion piece kind, `'q' | 'r' | 'b' | 'n'` in `types/chess.ts`. -/
inductive Promotion where
  | q
  | r
  | b
  | n
deriving DecidableEq, Repr

/-- The `Move` interface of `types/chess.ts`.  `from`/`to` are algebraic
square strings; `color` and `promotion` are optional fields (`from` is a
Lean keyword, hence the trailing underscores). -/
structure Move where
  from_ : String
  to_ : String
  san : String
  color : Option Color := none
  promotion : Option Promotion := none
deriving DecidableEq, Repr

/-- The `AlternateLine` interface of `types/opening.ts`. -/
structure AlternateLine where
  name : String
  moves : List Move
  deviationMove : Nat
  description : Option String := none
deriving DecidableEq, Repr

/-- Opening difficulty, `'beginner' | 'intermediate' | 'advanced'`. -/
inductive Difficulty where
  | beginner
  | intermediate
  | advanced
deriving DecidableEq, Repr

/-- The `Opening` interface of `types/opening.ts`. -/
structure Opening where
  id : String
  name : String
  eco : String
  difficulty : Difficulty
  description : String
  mainLine : List Move
  alternateLines : List AlternateLine
  tags : List String
  category : String
  color : Color
deriving DecidableEq, Repr

/-! ## Opening theory matcher (`openingDatabase.ts`) -/

/-- The pointwise move comparison used by `OpeningDatabase.matchesLine`:
two moves agree when their `from`, `to` and `promotion` fields coincide
(`notation`/`color` are not compared). -/
def moveAgrees (historyMove lineMove : Move) : Bool :=
  decide (historyMove.from_ = lineMove.from_) &&
  decide (historyMove.to_ = lineMove.to_) &&
  decide (historyMove.promotion = lineMove.promotion)

/-- `OpeningDatabase.matchesLine`: an empty history matches any line, a
history longer than the line matches nothing, otherwise every history
move must agree with the line move at the same index. -/
def matchesLine (line : List Move) (moveHistory : List Move) : Bool :=
  if moveHistory.length = 0 then
    true
  else if line.length < moveHistory.length then
    false
  else
    (List.range moveHistory.length).all fun i =>
      match moveHistory.get? i, line.get? i with
      | some historyMove, some lineMove => moveAgrees historyMove lineMove
      | _, _ => false

/-- `OpeningDatabase.findMatchingLine`: the main line is tried first,
then the alternate lines in catalog order; the first line matching the
history wins. -/
def findMatchingLine (opening : Opening) (moveHistory : List Move) :
    Option (List Move) :=
  if matchesLine opening.mainLine moveHistory then
    some opening.mainLine
  else
    match opening.alternateLines.find? (fun altLine => matchesLine altLine.moves moveHistory) with
    | some altLine => some altLine.moves
    | none => none

/-- `OpeningDatabase.getExpectedMove`: resolve the matching line, keep
only the moves of the requested color, and return the one at index
`floor(history.length / 2)` when it exists. -/
def getExpectedMove (opening : Opening) (moveHistory : List Move)
    (color : Color) : Option Move :=
  let moveIndex := moveHistory.length
  match findMatchingLine opening moveHistory with
  | none => none
  | some matchingLine =>
    let nextMoves := matchingLine.filter fun move => decide (move.color = some color)
    let expectedMoveIndex := moveIndex / 2
    if h : expectedMoveIndex < nextMoves.length then
      some (nextMoves.get ⟨expectedMoveIndex, h⟩)
    else
      none

/-- `OpeningDatabase.isMoveInTheory`: true when a line matches the
history and the submitted move agrees with the expected move for the
mover's color (defaulting to white when the move carries no color) on
`from`, `to` and `promotion`. -/
def isMoveInTheory (opening : Opening) (moveHistory : List Move)
    (move : Move) : Bool :=
  match findMatchingLine opening moveHistory with
  | none => false
  | some _ =>
    match getExpectedMove opening moveHistory (move.color.getD Color.white) with
    | none => false
    | some expectedMove =>
      decide (expectedMove.from_ = move.from_) &&
      decide (expectedMove.to_ = move.to_) &&
      decide (expectedMove.promotion = move.promotion)

/-! ## Practice session state machine (`useOpeningPractice.ts`) -/

/-- `checkOpeningCompletionWithHistory` of `useOpeningPractice.ts`: the
session counts as completed once the (non-empty) history is at least as
long as the main line, or at least as long as any alternate line. -/
def checkOpeningCompletionWithHistory (opening : Option Opening)
    (history : List Move) : Bool :=
  match opening with
  | none => false
  | some opening =>
    if history.length = 0 then
      false
    else
      let mainLineLength := opening.mainLine.length
      if mainLineLength ≤ history.length then
        true
      else
        opening.alternateLines.any fun altLine =>
          decide (altLine.moves.length ≤ history.length)

/-- The per-session react state of `useOpeningPractice` that the session
state machine reads and writes.  `aiHistory` is the scripted opponent's
own copy of the move history (`AIOpponent.moveHistory`), kept in sync by
`recordUserMove`. -/
structure PracticeState where
  opening : Option Opening
  userColor : Color
  moveHistory : List Move
  aiHistory : List Move
  correctMoves : Nat
  totalMoves : Nat
  lastMoveCorrect : Option Bool
  sessionEnded : Bool
  hasMadeMistake : Bool
  openingCompleted : Bool
  waitingForInteraction : Bool
deriving DecidableEq, Repr

/-- `endSession` of `useOpeningPractice.ts`, restricted to its state
updates: a no-op when the session already ended, otherwise it marks the
session ended and, when a rating was requested, waits for the next
interaction.  (Persistence of the progress record is fire-and-forget and
modelled separately by `updateSessionProgress`.) -/
def endSessionUpdate (s : PracticeState) (showRating : Bool) : PracticeState :=
  if s.sessionEnded then
    s
  else
    { s with
      sessionEnded := true
      waitingForInteraction := if showRating then true else s.waitingForInteraction }

/-- Result of one `makeUserMove` call: the updated session state, the
boolean the function returns, and whether an opponent reply was
scheduled for this turn (the `setTimeout` block of the source). -/
structure MakeUserMoveResult where
  state : PracticeState
  accepted : Bool
  aiReplyScheduled : Bool
deriving DecidableEq, Repr

/-- `makeUserMove` of `useOpeningPractice.ts` as a synchronous state
transition.  `engineTurn` is the live engine's side to move and
`moveResult` the outcome of `makeMove from to` (`none` when the move is
illegal; a legal move is appended to the game history by `makeMove`).
The deferred `endSession(true)` of the mistake path and the immediate
`endSession(true)` of the completion path are folded into the resulting
state; the opponent's delayed reply is reported as `aiReplyScheduled`
rather than executed. -/
def makeUserMove (s : PracticeState) (engineTurn : Color)
    (moveResult : Option Move) : MakeUserMoveResult :=
  if engineTurn ≠ s.userColor ∨ s.sessionEnded = true then
    ⟨s, false, false⟩
  else
    match moveResult with
    | none => ⟨s, false, false⟩
    | some move =>
      let isCorrect :=
        match s.opening with
        | some opening => isMoveInTheory opening s.aiHistory move
        | none => true
      let s := { s with
        moveHistory := s.moveHistory ++ [move]
        totalMoves := s.totalMoves + 1 }
      if isCorrect then
        let s := { s with correctMoves := s.correctMoves + 1 }
        if checkOpeningCompletionWithHistory s.opening s.moveHistory then
          ⟨endSessionUpdate { s with openingCompleted := true } true, true, false⟩
        else
          ⟨{ s with
              lastMoveCorrect := some true
              aiHistory := s.aiHistory ++ [move] }, true, true⟩
      else
        ⟨endSessionUpdate
          { s with hasMadeMistake := true, lastMoveCorrect := some false } true,
         true, false⟩

/-! ## Scripted opponent (`aiOpponent.ts`) -/

/-- A chess piece as returned by `ChessEngine.getPiece`. -/
structure Piece where
  ptype : String
  color : Color
deriving DecidableEq, Repr

/-- The surface of the live move-legality engine (`ChessEngine`, a
wrapper around chess.js) that `AIOpponent` consumes: the side to move,
the list of legal moves, the piece occupying a square, legality of a
from/to pair, and whether applying a legal move leaves the opponent in
check (`givesCheck` models probing a temporary engine built from the
current FEN — the source's duplicated `makeMove` call on the temporary
engine fails with the turn already switched and leaves that position
unchanged, so the probe reports the check status after the single
move). -/
structure EngineView where
  turn : Color
  validMoves : List Move
  pieceAt : String → Option Piece
  isMoveValid : String → String → Bool
  givesCheck : Move → Bool

/-- `AIOpponent.getRandomValidMove`: from the legal moves prefer one
giving check, else one capturing (destination square occupied), else any
legal move; `none` exactly when there is no legal move.  `r` models the
`Math.floor(Math.random() * len)` index draw. -/
def getRandomValidMove (e : EngineView) (r : Nat) : Option Move :=
  let validMoves := e.validMoves
  if validMoves.length = 0 then
    none
  else
    let captures := validMoves.filter fun move => (e.pieceAt move.to_).isSome
    let checks := validMoves.filter fun move => e.givesCheck move
    if 0 < checks.length then
      checks.get? (r % checks.length)
    else if 0 < captures.length then
      captures.get? (r % captures.length)
    else
      validMoves.get? (r % validMoves.length)

/-- The scripted opponent's own state: its assigned opening and its copy
of the move history. -/
structure AIOpponentState where
  opening : Option Opening
  moveHistory : List Move
deriving Repr

/-- `AIOpponent.getNextMove`: follow the theory move when the opening is
set, a theory move exists and it is still legal in the live position;
otherwise fall back to `getRandomValidMove`. -/
def getNextMove (ai : AIOpponentState) (e : EngineView) (r : Nat) : Option Move :=
  match ai.opening with
  | none => getRandomValidMove e r
  | some opening =>
    match getExpectedMove opening ai.moveHistory e.turn with
    | some theoryMove =>
      if e.isMoveValid theoryMove.from_ theoryMove.to_ then
        some theoryMove
      else
        getRandomValidMove e r
    | none => getRandomValidMove e r

/-- `AIOpponent.getMove` simply delegates to `getNextMove`. -/
def getMove (ai : AIOpponentState) (e : EngineView) (r : Nat) : Option Move :=
  getNextMove ai e r

/-! ## Progress records (`progressTracker.ts`) -/

/-- A self-reported difficulty rating, `'hard' | 'good' | 'easy'`. -/
inductive Rating where
  | hard
  | good
  | easy
deriving DecidableEq, Repr

/-- One entry of a progress record's rating history. -/
structure RatingEntry where
  date : Int
  rating : Rating
deriving DecidableEq, Repr

/-- The `OpeningProgress` record of `types/progress.ts`, together with
the optional rating fields written by `ProgressTracker.updateRating`.
Dates are epoch milliseconds. -/
structure OpeningProgress where
  openingId : String
  timesPracticed : Nat
  lastPracticed : Int
  bestAccuracy : Rat
  averageAccuracy : Rat
  completed : Bool
  masteryLevel : Nat
  difficultyRating : Option Rating := none
  lastRated : Option Int := none
  ratingHistory : Option (List RatingEntry) := none
deriving DecidableEq, Repr

/-- `ProgressTracker.calculateMasteryLevel`: the fixed accuracy /
practice-count threshold cascade for the 0-5 star mastery level. -/
def calculateMasteryLevel (averageAccuracy : Rat) (timesPracticed : Nat) : Nat :=
  if timesPracticed = 0 then 0
  else if 95 ≤ averageAccuracy ∧ 5 ≤ timesPracticed then 5
  else if 90 ≤ averageAccuracy ∧ 4 ≤ timesPracticed then 4
  else if 80 ≤ averageAccuracy ∧ 3 ≤ timesPracticed then 3
  else if 70 ≤ averageAccuracy ∧ 2 ≤ timesPracticed then 2
  else if 60 ≤ averageAccuracy ∧ 1 ≤ timesPracticed then 1
  else 0

/-- `ProgressTracker.updateSessionProgress` as a pure record update:
`existing` is the stored record for the opening (`none` on the first
session), `now` the current time; the result is the record written
back. -/
def updateSessionProgress (existing : Option OpeningProgress)
    (openingId : String) (accuracy : Rat) (correctMoves totalMoves : Nat)
    (now : Int) : OpeningProgress :=
  match existing with
  | none =>
    { openingId := openingId
      timesPracticed := 1
      lastPracticed := now
      bestAccuracy := accuracy
      averageAccuracy := accuracy
      completed := decide (0 < totalMoves) && decide (correctMoves = totalMoves)
      masteryLevel := calculateMasteryLevel accuracy 1 }
  | some progress =>
    let timesPracticed := progress.timesPracticed + 1
    let newAverageAccuracy :=
      (progress.averageAccuracy * progress.timesPracticed + accuracy) / timesPracticed
    let newBestAccuracy := max progress.bestAccuracy accuracy
    let completed :=
      progress.completed ||
        (decide (0 < totalMoves) && decide (correctMoves = totalMoves))
    { progress with
      timesPracticed := timesPracticed
      lastPracticed := now
      bestAccuracy := newBestAccuracy
      averageAccuracy := newAverageAccuracy
      completed := completed
      masteryLevel := calculateMasteryLevel newAverageAccuracy timesPracticed }

/-! ## Opening selector (`openingRoulette.ts`) -/

/-- The `RouletteWeights` table. -/
structure RouletteWeights where
  hard : Rat
  good : Rat
  easy : Rat
  unrated : Rat
deriving DecidableEq, Repr

/-- `DEFAULT_WEIGHTS` of `openingRoulette.ts`. -/
def DEFAULT_WEIGHTS : RouletteWeights :=
  { hard := 3, good := 1, easy := 3/10, unrated := 1 }

/-- The `TimeDecayConfig` record. -/
structure TimeDecayConfig where
  enabled : Bool
  decayDays : Nat
  maxDecayMultiplier : Rat
deriving DecidableEq, Repr

/-- `DEFAULT_TIME_DECAY` of `openingRoulette.ts`. -/
def DEFAULT_TIME_DECAY : TimeDecayConfig :=
  { enabled := true, decayDays := 7, maxDecayMultiplier := 2 }

/-- `FUZZ_FACTOR` of `openingRoulette.ts`. -/
def FUZZ_FACTOR : Rat := 1/10

/-- Milliseconds per day, the divisor of `getDaysSinceLastPractice`. -/
def msPerDay : Int := 1000 * 60 * 60 * 24

/-- `OpeningRoulette.getDaysSinceLastPractice`:
`Math.floor((now - lastPracticed) / msPerDay)`, i.e. flooring integer
division of the millisecond difference. -/
def getDaysSinceLastPractice (now lastPracticed : Int) : Int :=
  Int.fdiv (now - lastPracticed) msPerDay

/-- The base weight looked up in the weight table from the (possibly
missing) difficulty rating, `this.weights[rating]` with
`rating = progress?.difficultyRating || 'unrated'`. -/
def baseWeight (weights : RouletteWeights) (rating : Option Rating) : Rat :=
  match rating with
  | some Rating.hard => weights.hard
  | some Rating.good => weights.good
  | some Rating.easy => weights.easy
  | none => weights.unrated

/-- `OpeningRoulette.applyTimeDecay`: no change within the decay window,
otherwise multiply by `1 + (daysSince - decayDays)/decayDays` capped at
`maxDecayMultiplier`. -/
def applyTimeDecay (cfg : TimeDecayConfig) (baseW : Rat)
    (lastPracticed now : Int) : Rat :=
  let daysSince := getDaysSinceLastPractice now lastPracticed
  if daysSince ≤ (cfg.decayDays : Int) then
    baseW
  else
    let daysOverThreshold := daysSince - (cfg.decayDays : Int)
    let decayMultiplier : Rat := 1 + (daysOverThreshold : Rat) / (cfg.decayDays : Rat)
    let cappedMultiplier := min decayMultiplier cfg.maxDecayMultiplier
    baseW * cappedMultiplier

/-- `OpeningRoulette.applyFuzzFactor` with the random draw `u ∈ [0,1)`
made explicit: `weight * (1 + (u - 0.5) * 2 * FUZZ_FACTOR)`. -/
def applyFuzzFactor (weight : Rat) (u : Rat) : Rat :=
  weight * (1 + (u - 1/2) * 2 * FUZZ_FACTOR)

/-- `OpeningRoulette.calculateWeight` with the fuzz draw `u` explicit:
rating-table base weight, time decay for easy-rated openings with a
last-practice date when decay is enabled, fuzz, and the `0.01` floor. -/
def calculateWeight (weights : RouletteWeights) (decay : TimeDecayConfig)
    (now : Int) (progress : Option OpeningProgress) (u : Rat) : Rat :=
  let rating := progress.bind (fun p => p.difficultyRating)
  let weight := baseWeight weights rating
  let weight :=
    match progress with
    | some p =>
      if rating = some Rating.easy ∧ decay.enabled = true then
        applyTimeDecay decay weight p.lastPracticed now
      else
        weight
    | none => weight
  let weight := applyFuzzFactor weight u
  max weight (1/100)

/-- The subtraction loop of `OpeningRoulette.weightedRandomSelect`:
walk the weighted items subtracting each weight from the running random
value, returning the first item that drives it to `≤ 0`. -/
def selectLoop : List (Opening × Rat) → Rat → Option Opening
  | [], _ => none
  | item :: rest, r =>
    if r - item.2 ≤ 0 then some item.1 else selectLoop rest (r - item.2)

/-- `OpeningRoulette.weightedRandomSelect` on a non-empty item list with
the random draw `u ∈ [0,1)` explicit: draw `u * totalWeight`, run the
subtraction walk, and fall back to the last item (floating-point guard
of the source). -/
def weightedRandomSelect (first : Opening × Rat)
    (rest : List (Opening × Rat)) (u : Rat) : Opening :=
  let items := first :: rest
  let totalWeight := items.foldl (fun sum item => sum + item.2) 0
  match selectLoop items (u * totalWeight) with
  | some opening => opening
  | none => (rest.getLastD first).1

/-- `OpeningRoulette.selectOpening` with the random tape explicit:
`rand i` is the fuzz draw consumed for the `i`-th opening and
`rand openings.length` the selection draw.  Empty catalogs fail, a
singleton is returned as-is (no weight computed, no randomness drawn),
otherwise every opening is weighted and the cumulative draw decides. -/
def selectOpening (weights : RouletteWeights) (decay : TimeDecayConfig)
    (openings : List Opening) (progressData : String → Option OpeningProgress)
    (rand : Nat → Rat) (now : Int) : Except String Opening :=
  match openings with
  | [] => Except.error "No openings available for selection"
  | [opening] => Except.ok opening
  | o1 :: o2 :: rest =>
    let weigh := fun (i : Nat) (o : Opening) =>
      (o, calculateWeight weights decay now (progressData o.id) (rand i))
    let firstItem := weigh 0 o1
    let restItems := ((o2 :: rest).enumFrom 1).map fun p => weigh p.1 p.2
    Except.ok (weightedRandomSelect firstItem restItems (rand (o1 :: o2 :: rest).length))

/-! ## Concrete fixtures for counterexamples and witnesses -/

/-- 1.e4 as recorded by the engine. -/
def mvE4 : Move := { from_ := "e2", to_ := "e4", san := "e4", color := some Color.white }

/-- 1.d4 as recorded by the engine. -/
def mvD4 : Move := { from_ := "d2", to_ := "d4", san := "d4", color := some Color.white }

/-- 1...e5. -/
def mvE5 : Move := { from_ := "e7", to_ := "e5", san := "e5", color := some Color.black }

/-- 1...d5. -/
def mvD5 : Move := { from_ := "d7", to_ := "d5", san := "d5", color := some Color.black }

/-- 2.Nf3. -/
def mvNf3 : Move := { from_ := "g1", to_ := "f3", san := "Nf3", color := some Color.white }

/-- 2...Nc6. -/
def mvNc6 : Move := { from_ := "b8", to_ := "c6", san := "Nc6", color := some Color.black }

/-- 1.f3, a deviation from every fixture line. -/
def mvF3 : Move := { from_ := "f2", to_ := "f3", san := "f3", color := some Color.white }

/-- A one-move alternate line starting 1.d4. -/
def altD4 : AlternateLine :=
  { name := "Queens Pawn sideline", moves := [mvD4], deviationMove := 1 }

/-- Fixture opening: main line 1.e4 with the alternate line 1.d4.  The
empty history is a prefix of both lines. -/
def openingA : Opening :=
  { id := "fixture-a", name := "Fixture A", eco := "C20",
    difficulty := Difficulty.beginner, description := "fixture",
    mainLine := [mvE4], alternateLines := [altD4],
    tags := [], category := "Kings Pawn", color := Color.white }

/-- A two-move alternate line 1.d4 d5. -/
def altD4D5 : AlternateLine :=
  { name := "Queens Pawn line", moves := [mvD4, mvD5], deviationMove := 1 }

/-- Fixture opening: four-move main line 1.e4 e5 2.Nf3 Nc6 with a
two-move alternate line 1.d4 d5 that shares no prefix with it. -/
def openingB : Opening :=
  { id := "fixture-b", name := "Fixture B", eco := "C44",
    difficulty := Difficulty.beginner, description := "fixture",
    mainLine := [mvE4, mvE5, mvNf3, mvNc6], alternateLines := [altD4D5],
    tags := [], category := "Kings Pawn", color := Color.white }

/-- Two opening moves of `openingB`'s main line. -/
def historyB : List Move := [mvE4, mvE5]

/-! ## Helper lemmas -/

theorem moveAgrees_iff (a b : Move) :
    moveAgrees a b = true ↔
      a.from_ = b.from_ ∧ a.to_ = b.to_ ∧ a.promotion = b.promotion := by
  simp [moveAgrees, and_assoc]

theorem matchesLine_eq_true_iff (line h : List Move) :
    matchesLine line h = true ↔
      h.length ≤ line.length ∧
        ∀ i hm lm, h.get? i = some hm → line.get? i = some lm →
          hm.from_ = lm.from_ ∧ hm.to_ = lm.to_ ∧ hm.promotion = lm.promotion := by
  unfold matchesLine
  rcases Nat.eq_zero_or_pos h.length with h0 | hpos
  · have hnil : h = [] := List.length_eq_zero.mp h0
    subst hnil
    simp
  · have h0 : ¬ h.length = 0 := by omega
    rw [if_neg h0]
    by_cases hlen : line.length < h.length
    · rw [if_pos hlen]
      constructor
      · intro hfalse
        exact absurd hfalse (by simp)
      · rintro ⟨hle, _⟩
        omega
    · rw [if_neg hlen]
      push_neg at hlen
      rw [List.all_eq_true]
      constructor
      · intro hall
        refine ⟨hlen, ?_⟩
        intro i hm lm hhm hlm
        have hi : i < h.length := by
          rcases Nat.lt_or_ge i h.length with hi | hi
          · exact hi
          · rw [List.get?_eq_none.mpr hi] at hhm
            cases hhm
        have hmem := hall i (List.mem_range.mpr hi)
        rw [hhm, hlm] at hmem
        exact (moveAgrees_iff hm lm).mp hmem
      · rintro ⟨hle, hag⟩ i hi
        have hi' := List.mem_range.mp hi
        have hhm : h.get? i = some (h.get ⟨i, hi'⟩) := List.get?_eq_get hi'
        have hil : i < line.length := lt_of_lt_of_le hi' hlen
        have hlm : line.get? i = some (line.get ⟨i, hil⟩) := List.get?_eq_get hil
        rw [hhm, hlm]
        exact (moveAgrees_iff _ _).mpr (hag i _ _ hhm hlm)

/-! ## Claims -/

/-- C1 counterexample: with `openingA` (main line 1.e4, single alternate
line 1.d4) and the empty history — a prefix of both lines —
`findMatchingLine` returns the main line, not the first-listed alternate
line, refuting the claim's alternates-first order. -/
theorem C1_counterexample :
    matchesLine openingA.mainLine [] = true ∧
    matchesLine altD4.moves [] = true ∧
    openingA.alternateLines = [altD4] ∧
    findMatchingLine openingA [] = some openingA.mainLine ∧
    findMatchingLine openingA [] ≠ some altD4.moves := by
  decide

/-- C1 (amended): `findMatchingLine` tries the MAIN line first and only
then the alternate lines in catalog order, returning the first line that
matches; a line matches exactly when it is at least as long as the
history and agrees with it at every index on (origin, destination,
promotion). -/
theorem C1_matchLine_order (o : Opening) (h : List Move) :
    (matchesLine o.mainLine h = true → findMatchingLine o h = some o.mainLine) ∧
    (matchesLine o.mainLine h = false →
      findMatchingLine o h =
        (o.alternateLines.find? fun altLine => matchesLine altLine.moves h).map
          AlternateLine.moves) ∧
    (∀ line, matchesLine line h = true ↔
      h.length ≤ line.length ∧
        ∀ i hm lm, h.get? i = some hm → line.get? i = some lm →
          hm.from_ = lm.from_ ∧ hm.to_ = lm.to_ ∧ hm.promotion = lm.promotion) := by
  refine ⟨?_, ?_, fun line => matchesLine_eq_true_iff line h⟩
  · intro hmatch
    unfold findMatchingLine
    rw [if_pos hmatch]
  · intro hnmatch
    unfold findMatchingLine
    rw [if_neg (by simp [hnmatch])]
    cases hfind : o.alternateLines.find? fun altLine => matchesLine altLine.moves h <;>
      simp [hfind]

/-- C1 witness: the amended order theorem applied to `openingA` with the
empty history. -/
theorem C1_matchLine_order_witness :
    findMatchingLine openingA [] = some openingA.mainLine :=
  (C1_matchLine_order openingA []).1 (by decide)

/-- C2 counterexample: in `openingB` the history 1.e4 e5 matches the
four-move main line (the matched line), yet the completion check already
reports true because the history has reached the length of the unrelated
two-move alternate line 1.d4 d5 — completion is not decided against the
matched line only. -/
theorem C2_counterexample :
    findMatchingLine openingB historyB = some openingB.mainLine ∧
    historyB.length = 2 ∧
    openingB.mainLine.length = 4 ∧
    checkOpeningCompletionWithHistory (some openingB) historyB = true := by
  decide

/-- C2 (amended): the completion check reports true exactly when the
history is non-empty and its length has reached the length of the main
line or of SOME alternate line, regardless of which line the matcher
matched. -/
theorem C2_completion_rule (o : Opening) (h : List Move) :
    checkOpeningCompletionWithHistory (some o) h = true ↔
      h ≠ [] ∧ (o.mainLine.length ≤ h.length ∨
        ∃ altLine ∈ o.alternateLines, altLine.moves.length ≤ h.length) := by
  simp only [checkOpeningCompletionWithHistory]
  by_cases h0 : h.length = 0
  · simp [h0, List.length_eq_zero.mp h0]
  · rw [if_neg h0]
    have hne : h ≠ [] := by
      intro hnil
      exact h0 (by simp [hnil])
    by_cases hmain : o.mainLine.length ≤ h.length
    · simp [hmain, hne]
    · simp [hmain, hne, List.any_eq_true]

/-- C3: `getExpectedMove` resolves the line matching the history and
returns the element at index `floor(history.length / 2)` of that line's
moves of the requested color (`List.get?` is `none` exactly when the
index is out of range); it returns `none` when no line matches. -/
theorem C3_expectedMove (o : Opening) (h : List Move) (c : Color) :
    (findMatchingLine o h = none → getExpectedMove o h c = none) ∧
    (∀ line, findMatchingLine o h = some line →
      getExpectedMove o h c =
        (line.filter fun m => decide (m.color = some c)).get? (h.length / 2)) := by
  constructor
  · intro hnone
    simp only [getExpectedMove, hnone]
  · intro line hline
    simp only [getExpectedMove, hline]
    by_cases hidx : h.length / 2 < (line.filter fun m => decide (m.color = some c)).length
    · rw [dif_pos hidx, List.get?_eq_get hidx]
    · rw [dif_neg hidx, List.get?_eq_none.mpr (Nat.le_of_not_lt hidx)]

/-- C3 witness: on `openingA` with the empty history, the expected white
move is the first white move of the matched (main) line. -/
theorem C3_expectedMove_witness :
    getExpectedMove openingA [] Color.white =
      (openingA.mainLine.filter fun m => decide (m.color = some Color.white)).get?
        (([] : List Move).length / 2) :=
  (C3_expectedMove openingA [] Color.white).2 openingA.mainLine (by decide)

/-- C4: `isMoveInTheory` is true exactly when a line matches the history
and the submitted move agrees with the expected move for the mover's
side (white when the move carries no color) on origin, destination and
promotion; in particular it is false when the expected move is `none` or
differs in any of the three fields. -/
theorem C4_isMoveInTheory (o : Opening) (h : List Move) (m : Move) :
    isMoveInTheory o h m = true ↔
      (findMatchingLine o h).isSome = true ∧
        ∃ em, getExpectedMove o h (m.color.getD Color.white) = some em ∧
          em.from_ = m.from_ ∧ em.to_ = m.to_ ∧ em.promotion = m.promotion := by
  unfold isMoveInTheory
  cases hfind : findMatchingLine o h with
  | none => simp [hfind]
  | some line =>
    cases hexp : getExpectedMove o h (m.color.getD Color.white) with
    | none => simp [hfind, hexp]
    | some em => simp [hfind, hexp, and_assoc]

/-- The initial practice-session state for `openingA`, user playing
white. -/
def practiceStateA : PracticeState :=
  { opening := some openingA, userColor := Color.white, moveHistory := [],
    aiHistory := [], correctMoves := 0, totalMoves := 0,
    lastMoveCorrect := none, sessionEnded := false, hasMadeMistake := false,
    openingCompleted := false, waitingForInteraction := false }

/-- C6: in an active session, a legal learner move that is not in theory
increments `totalMoves` only, leaves `correctMoves` unchanged, ends the
session with the mistake flag set (the Failed outcome) awaiting the
rating interaction, and schedules no opponent reply. -/
theorem C6_wrongMove (s : PracticeState) (o : Opening) (m : Move)
    (hend : s.sessionEnded = false)
    (hop : s.opening = some o)
    (hnt : isMoveInTheory o s.aiHistory m = false) :
    (makeUserMove s s.userColor (some m)).state.totalMoves = s.totalMoves + 1 ∧
    (makeUserMove s s.userColor (some m)).state.correctMoves = s.correctMoves ∧
    (makeUserMove s s.userColor (some m)).state.sessionEnded = true ∧
    (makeUserMove s s.userColor (some m)).state.hasMadeMistake = true ∧
    (makeUserMove s s.userColor (some m)).state.waitingForInteraction = true ∧
    (makeUserMove s s.userColor (some m)).accepted = true ∧
    (makeUserMove s s.userColor (some m)).aiReplyScheduled = false := by
  simp [makeUserMove, endSessionUpdate, hend, hop, hnt]

/-- C6 witness: the deviation 1.f3 in a fresh `openingA` session. -/
theorem C6_wrongMove_witness :
    (makeUserMove practiceStateA practiceStateA.userColor (some mvF3)).state.totalMoves
        = practiceStateA.totalMoves + 1 ∧
    (makeUserMove practiceStateA practiceStateA.userColor (some mvF3)).state.correctMoves
        = practiceStateA.correctMoves ∧
    (makeUserMove practiceStateA practiceStateA.userColor (some mvF3)).state.sessionEnded = true ∧
    (makeUserMove practiceStateA practiceStateA.userColor (some mvF3)).state.hasMadeMistake = true ∧
    (makeUserMove practiceStateA practiceStateA.userColor
        (some mvF3)).state.waitingForInteraction = true ∧
    (makeUserMove practiceStateA practiceStateA.userColor (some mvF3)).accepted = true ∧
    (makeUserMove practiceStateA practiceStateA.userColor (some mvF3)).aiReplyScheduled = false :=
  C6_wrongMove practiceStateA openingA mvF3 rfl rfl (by decide)

/-- C7: the mastery-level cascade realizes the fixed threshold table —
each star level is reached exactly when its accuracy and practice-count
thresholds hold and no higher level applies — with the three concrete
instances 96/5 ↦ 5, 65/1 ↦ 1 and x/0 ↦ 0. -/
theorem C7_masteryLevel (a : Rat) (t : Nat) :
    (calculateMasteryLevel a t = 5 ↔ 95 ≤ a ∧ 5 ≤ t) ∧
    (calculateMasteryLevel a t = 4 ↔ ¬(95 ≤ a ∧ 5 ≤ t) ∧ 90 ≤ a ∧ 4 ≤ t) ∧
    (calculateMasteryLevel a t = 3 ↔
      ¬(95 ≤ a ∧ 5 ≤ t) ∧ ¬(90 ≤ a ∧ 4 ≤ t) ∧ 80 ≤ a ∧ 3 ≤ t) ∧
    (calculateMasteryLevel a t = 2 ↔
      ¬(95 ≤ a ∧ 5 ≤ t) ∧ ¬(90 ≤ a ∧ 4 ≤ t) ∧ ¬(80 ≤ a ∧ 3 ≤ t) ∧ 70 ≤ a ∧ 2 ≤ t) ∧
    (calculateMasteryLevel a t = 1 ↔
      ¬(95 ≤ a ∧ 5 ≤ t) ∧ ¬(90 ≤ a ∧ 4 ≤ t) ∧ ¬(80 ≤ a ∧ 3 ≤ t) ∧
        ¬(70 ≤ a ∧ 2 ≤ t) ∧ 60 ≤ a ∧ 1 ≤ t) ∧
    (calculateMasteryLevel a t = 0 ↔ t = 0 ∨ a < 60) ∧
    calculateMasteryLevel 96 5 = 5 ∧
    calculateMasteryLevel 65 1 = 1 ∧
    (∀ x : Rat, calculateMasteryLevel x 0 = 0) := by
  refine ⟨?_, ?_, ?_, ?_, ?_, ?_, by decide, by decide, fun x => rfl⟩ <;>
    · unfold calculateMasteryLevel
      split_ifs <;> simp_all <;> first | omega | linarith

/-- C10: `updateSessionProgress` never clears the completed flag: an
existing record with `completed = true` stays completed after any later
session, however inaccurate. -/
theorem C10_completedMonotone (p : OpeningProgress) (openingId : String)
    (accuracy : Rat) (correctMoves totalMoves : Nat) (now : Int)
    (hc : p.completed = true) :
    (updateSessionProgress (some p) openingId accuracy correctMoves
        totalMoves now).completed = true := by
  simp [updateSessionProgress, hc]

/-- A completed progress record used to witness C10. -/
def progressDone : OpeningProgress :=
  { openingId := "fixture-a", timesPracticed := 3, lastPracticed := 0,
    bestAccuracy := 100, averageAccuracy := 90, completed := true,
    masteryLevel := 3 }

/-- C10 witness: a later failed session (1 of 4 moves correct) on a
completed record leaves it completed. -/
theorem C10_completedMonotone_witness :
    (updateSessionProgress (some progressDone) "fixture-a" 25 1 4
        86400000).completed = true :=
  C10_completedMonotone progressDone "fixture-a" 25 1 4 86400000 rfl

/-- C8: `selectOpening` fails on the empty catalog with the
no-openings error, returns the sole opening of a singleton catalog
independently of the progress data, the random tape and the clock (no
weight computed, no randomness drawn), and for two or more openings
performs the cumulative-weight draw over the weights computed per
opening. -/
theorem C8_selectOpening (weights : RouletteWeights) (decay : TimeDecayConfig)
    (progressData : String → Option OpeningProgress) (rand : Nat → Rat)
    (now : Int) :
    (selectOpening weights decay [] progressData rand now =
      Except.error "No openings available for selection") ∧
    (∀ o, selectOpening weights decay [o] progressData rand now = Except.ok o) ∧
    (∀ o progressData2 rand2 now2,
      selectOpening weights decay [o] progressData rand now =
        selectOpening weights decay [o] progressData2 rand2 now2) ∧
    (∀ o1 o2 rest,
      selectOpening weights decay (o1 :: o2 :: rest) progressData rand now =
        Except.ok (weightedRandomSelect
          (o1, calculateWeight weights decay now (progressData o1.id) (rand 0))
          (((o2 :: rest).enumFrom 1).map fun p =>
            (p.2, calculateWeight weights decay now (progressData p.2.id) (rand p.1)))
          (rand (o1 :: o2 :: rest).length))) :=
  ⟨rfl, fun _ => rfl, fun _ _ _ _ => rfl, fun _ _ _ => rfl⟩

/-- `applyTimeDecay` under the default configuration, written with the
decayed branch guarded by `7 < daysSince`. -/
theorem applyTimeDecay_default (b : Rat) (last now : Int) :
    applyTimeDecay DEFAULT_TIME_DECAY b last now =
      if 7 < getDaysSinceLastPractice now last then
        b * min (1 + ((getDaysSinceLastPractice now last - 7 : Int) : Rat) / 7) 2
      else b := by
  unfold applyTimeDecay DEFAULT_TIME_DECAY
  by_cases hds : getDaysSinceLastPractice now last ≤ ((7 : Nat) : Int)
  · rw [if_pos hds, if_neg (by push_cast at hds ⊢; omega)]
  · rw [if_neg hds, if_pos (by push_cast at hds ⊢; omega)]
    push_cast
    ring_nf

/-- Bounds of the default decay multiplier: the decayed weight lies
between the base weight and twice the base weight. -/
theorem applyTimeDecay_default_bounds (b : Rat) (last now : Int) (hb : 0 ≤ b) :
    b ≤ applyTimeDecay DEFAULT_TIME_DECAY b last now ∧
    applyTimeDecay DEFAULT_TIME_DECAY b last now ≤ 2 * b := by
  rw [applyTimeDecay_default]
  by_cases hds : 7 < getDaysSinceLastPractice now last
  · rw [if_pos hds]
    have hcast : (0 : Rat) ≤ ((getDaysSinceLastPractice now last - 7 : Int) : Rat) := by
      have h7 : (0 : Int) ≤ getDaysSinceLastPractice now last - 7 := by omega
      exact_mod_cast h7
    have h1 : (1 : Rat) ≤ 1 + ((getDaysSinceLastPractice now last - 7 : Int) : Rat) / 7 := by
      have := div_nonneg hcast (by norm_num : (0 : Rat) ≤ 7)
      linarith
    have hmin1 : (1 : Rat) ≤ min (1 + ((getDaysSinceLastPractice now last - 7 : Int) : Rat) / 7) 2 :=
      le_min h1 (by norm_num)
    have hmin2 : min (1 + ((getDaysSinceLastPractice now last - 7 : Int) : Rat) / 7) 2 ≤ 2 :=
      min_le_right _ _
    constructor
    · nlinarith
    · nlinarith
  · rw [if_neg hds]
    constructor
    · exact le_refl b
    · linarith

/-- C9: under the default decay configuration (7 days, cap 2.0) the
pre-fuzz weight of an easy-rated opening equals the base weight times
`min(1 + (daysSince - 7)/7, 2)` once more than 7 days have passed and
the base weight otherwise; an opening last practiced 30 days ago
outweighs one practiced just now, and two decayed weights with the same
positive base never differ by more than a factor 2. -/
theorem C9_timeDecay (b : Rat) (lastA lastB now : Int) (hb : 0 < b) :
    (applyTimeDecay DEFAULT_TIME_DECAY b lastA now =
      if 7 < getDaysSinceLastPractice now lastA then
        b * min (1 + ((getDaysSinceLastPractice now lastA - 7 : Int) : Rat) / 7) 2
      else b) ∧
    applyTimeDecay DEFAULT_TIME_DECAY b now now <
      applyTimeDecay DEFAULT_TIME_DECAY b (now - 30 * msPerDay) now ∧
    applyTimeDecay DEFAULT_TIME_DECAY b lastA now ≤
      2 * applyTimeDecay DEFAULT_TIME_DECAY b lastB now := by
  have h30 : getDaysSinceLastPractice now (now - 30 * msPerDay) = 30 := by
    unfold getDaysSinceLastPractice
    rw [show now - (now - 30 * msPerDay) = msPerDay * 30 by ring]
    exact Int.mul_fdiv_cancel_left 30 (by norm_num [msPerDay])
  have h0 : getDaysSinceLastPractice now now = 0 := by
    unfold getDaysSinceLastPractice
    rw [sub_self]
    exact Int.zero_fdiv msPerDay
  refine ⟨applyTimeDecay_default b lastA now, ?_, ?_⟩
  · rw [applyTimeDecay_default b now now, applyTimeDecay_default b (now - 30 * msPerDay) now,
      h30, h0]
    rw [if_neg (by omega), if_pos (by omega)]
    have hmin : min (1 + (((30 : Int) - 7 : Int) : Rat) / 7) 2 = 2 := by
      rw [min_eq_right]
      norm_num
    rw [hmin]
    linarith
  · have hA := (applyTimeDecay_default_bounds b lastA now (le_of_lt hb)).2
    have hB := (applyTimeDecay_default_bounds b lastB now (le_of_lt hb)).1
    linarith

/-- C9 witness: base weight 0.3 (the default easy weight), compared at
`now` = 30 days after the epoch. -/
theorem C9_timeDecay_witness :
    (applyTimeDecay DEFAULT_TIME_DECAY (3/10) 0 (30 * msPerDay) =
      if 7 < getDaysSinceLastPractice (30 * msPerDay) 0 then
        (3/10) * min (1 + ((getDaysSinceLastPractice (30 * msPerDay) 0 - 7 : Int) : Rat) / 7) 2
      else 3/10) ∧
    applyTimeDecay DEFAULT_TIME_DECAY (3/10) (30 * msPerDay) (30 * msPerDay) <
      applyTimeDecay DEFAULT_TIME_DECAY (3/10) (30 * msPerDay - 30 * msPerDay) (30 * msPerDay) ∧
    applyTimeDecay DEFAULT_TIME_DECAY (3/10) 0 (30 * msPerDay) ≤
      2 * applyTimeDecay DEFAULT_TIME_DECAY (3/10) 0 (30 * msPerDay) :=
  C9_timeDecay (3/10) 0 0 (30 * msPerDay) (by norm_num)


/-- Structure of the `getRandomValidMove` fallback on a non-empty legal
move list: it returns some legal move, a checking one when one exists,
else a capturing one when one exists. -/
theorem getRandomValidMove_cases (e : EngineView) (r : Nat)
    (hne : e.validMoves ≠ []) :
    ∃ m, getRandomValidMove e r = some m ∧ m ∈ e.validMoves ∧
      ((e.validMoves.filter fun mv => e.givesCheck mv) ≠ [] →
        e.givesCheck m = true) ∧
      ((e.validMoves.filter fun mv => e.givesCheck mv) = [] →
        (e.validMoves.filter fun mv => (e.pieceAt mv.to_).isSome) ≠ [] →
        (e.pieceAt m.to_).isSome = true) := by
  have h0 : ¬ e.validMoves.length = 0 := fun h => hne (List.length_eq_zero.mp h)
  unfold getRandomValidMove
  rw [if_neg h0]
  by_cases hck : 0 < (e.validMoves.filter fun mv => e.givesCheck mv).length
  · rw [if_pos hck]
    have hmod := Nat.mod_lt r hck
    refine ⟨_, List.get?_eq_get hmod, (List.mem_filter.mp (List.get_mem _ _ _)).1, ?_, ?_⟩
    · intro _
      simpa using (List.mem_filter.mp (List.get_mem _ _ hmod)).2
    · intro hckO _
      rw [hckO] at hck
      simp at hck
  · rw [if_neg hck]
    have hckO : (e.validMoves.filter fun mv => e.givesCheck mv) = [] := by
      cases hx : e.validMoves.filter fun mv => e.givesCheck mv with
      | nil => rfl
      | cons a l =>
        rw [hx] at hck
        simp at hck
    by_cases hcap : 0 < (e.validMoves.filter fun mv => (e.pieceAt mv.to_).isSome).length
    · rw [if_pos hcap]
      have hmod := Nat.mod_lt r hcap
      refine ⟨_, List.get?_eq_get hmod, (List.mem_filter.mp (List.get_mem _ _ _)).1, ?_, ?_⟩
      · intro hckne
        exact absurd hckO hckne
      · intro _ _
        simpa using (List.mem_filter.mp (List.get_mem _ _ hmod)).2
    · rw [if_neg hcap]
      have hmod : r % e.validMoves.length < e.validMoves.length :=
        Nat.mod_lt r (List.length_pos.mpr hne)
      refine ⟨_, List.get?_eq_get hmod, List.get_mem _ _ _, ?_, ?_⟩
      · intro hckne
        exact absurd hckO hckne
      · intro _ hcapne
        exfalso
        apply hcapne
        cases hx : e.validMoves.filter fun mv => (e.pieceAt mv.to_).isSome with
        | nil => rfl
        | cons a l =>
          rw [hx] at hcap
          simp at hcap

/-- The fallback returns `none` exactly on an empty legal move list. -/
theorem getRandomValidMove_eq_none_iff (e : EngineView) (r : Nat) :
    getRandomValidMove e r = none ↔ e.validMoves = [] := by
  constructor
  · intro hnone
    by_contra hne
    obtain ⟨m, hm, -⟩ := getRandomValidMove_cases e r hne
    rw [hm] at hnone
    cases hnone
  · intro h
    unfold getRandomValidMove
    rw [if_pos (by simp [h])]

/-- C5: the scripted opponent returns `none` exactly when the position
has no legal move (given an engine view whose legality test only accepts
moves when legal moves exist); it plays the theory move whenever the
opening is set, a theory move exists and it is still legal; in every
other situation it plays the heuristic fallback, which prefers a
checking move, then a capturing move, then any legal move. -/
theorem C5_opponentMove (ai : AIOpponentState) (e : EngineView) (r : Nat)
    (hvalid : ∀ f t, e.isMoveValid f t = true → e.validMoves ≠ []) :
    (getMove ai e r = none ↔ e.validMoves = []) ∧
    (∀ o tm, ai.opening = some o →
      getExpectedMove o ai.moveHistory e.turn = some tm →
      e.isMoveValid tm.from_ tm.to_ = true →
      getMove ai e r = some tm) ∧
    (ai.opening = none → getMove ai e r = getRandomValidMove e r) ∧
    (∀ o, ai.opening = some o →
      (∀ tm, getExpectedMove o ai.moveHistory e.turn = some tm →
        e.isMoveValid tm.from_ tm.to_ = false) →
      getMove ai e r = getRandomValidMove e r) ∧
    ((e.validMoves.filter fun mv => e.givesCheck mv) ≠ [] →
      ∃ m, getRandomValidMove e r = some m ∧ m ∈ e.validMoves ∧
        e.givesCheck m = true) ∧
    ((e.validMoves.filter fun mv => e.givesCheck mv) = [] →
      (e.validMoves.filter fun mv => (e.pieceAt mv.to_).isSome) ≠ [] →
      ∃ m, getRandomValidMove e r = some m ∧ m ∈ e.validMoves ∧
        (e.pieceAt m.to_).isSome = true) ∧
    (e.validMoves ≠ [] →
      ∃ m, getRandomValidMove e r = some m ∧ m ∈ e.validMoves) := by
  refine ⟨⟨?_, ?_⟩, ?_, ?_, ?_, ?_, ?_, ?_⟩
  · intro hnone
    cases hop : ai.opening with
    | none =>
      simp only [getMove, getNextMove, hop] at hnone
      exact (getRandomValidMove_eq_none_iff e r).mp hnone
    | some o =>
      simp only [getMove, getNextMove, hop] at hnone
      cases hexp : getExpectedMove o ai.moveHistory e.turn with
      | none =>
        simp only [hexp] at hnone
        exact (getRandomValidMove_eq_none_iff e r).mp hnone
      | some tm =>
        simp only [hexp] at hnone
        by_cases hv : e.isMoveValid tm.from_ tm.to_ = true
        · rw [if_pos hv] at hnone
          cases hnone
        · rw [if_neg hv] at hnone
          exact (getRandomValidMove_eq_none_iff e r).mp hnone
  · intro hempty
    have hrnone := (getRandomValidMove_eq_none_iff e r).mpr hempty
    cases hop : ai.opening with
    | none =>
      simp only [getMove, getNextMove, hop]
      exact hrnone
    | some o =>
      simp only [getMove, getNextMove, hop]
      cases hexp : getExpectedMove o ai.moveHistory e.turn with
      | none =>
        simp only [hexp]
        exact hrnone
      | some tm =>
        simp only [hexp]
        have hv : ¬ e.isMoveValid tm.from_ tm.to_ = true := by
          intro hvb
          exact hvalid _ _ hvb hempty
        rw [if_neg hv]
        exact hrnone
  · intro o tm hop hexp hv
    simp only [getMove, getNextMove, hop, hexp]
    rw [if_pos hv]
  · intro hop
    simp only [getMove, getNextMove, hop]
  · intro o hop hinv
    simp only [getMove, getNextMove, hop]
    cases hexp : getExpectedMove o ai.moveHistory e.turn with
    | none => simp only [hexp]
    | some tm =>
      simp only [hexp]
      rw [if_neg (by simp [hinv tm hexp])]
  · intro hckne
    have hvne : e.validMoves ≠ [] := by
      intro h
      apply hckne
      rw [h]
      rfl
    obtain ⟨m, hm, hmem, hck, -⟩ := getRandomValidMove_cases e r hvne
    exact ⟨m, hm, hmem, hck hckne⟩
  · intro hckO hcapne
    have hvne : e.validMoves ≠ [] := by
      intro h
      apply hcapne
      rw [h]
      rfl
    obtain ⟨m, hm, hmem, -, hcap⟩ := getRandomValidMove_cases e r hvne
    exact ⟨m, hm, hmem, hcap hckO hcapne⟩
  · intro hvne
    obtain ⟨m, hm, hmem, -, -⟩ := getRandomValidMove_cases e r hvne
    exact ⟨m, hm, hmem⟩

/-- An engine view of the initial position restricted to the two fixture
moves: both 1.e4 and 1.d4 are legal, no square is occupied behind them,
no move gives check. -/
def engineViewA : EngineView :=
  { turn := Color.white
    validMoves := [mvE4, mvD4]
    pieceAt := fun _ => none
    isMoveValid := fun f t =>
      (decide (f = "e2") && decide (t = "e4")) || (decide (f = "d2") && decide (t = "d4"))
    givesCheck := fun _ => false }

/-- The opponent assigned `openingA` with an empty recorded history. -/
def aiStateA : AIOpponentState := { opening := some openingA, moveHistory := [] }

/-- C5 witness: on `engineViewA` the opponent plays the theory move
1.e4 of `openingA`. -/
theorem C5_opponentMove_witness :
    getMove aiStateA engineViewA 0 = some mvE4 :=
  (C5_opponentMove aiStateA engineViewA 0
      (fun _ _ _ => by simp [engineViewA])).2.1 openingA mvE4 rfl (by decide) (by decide)
